import Mathlib

/-!
Shallow embedding of `ChipfabrikMySqlContentStorage` (the MySQL + filesystem
content storage class of this repository) and proofs about it.

Modelling conventions:
* The MySQL `content` table is a list of `(id, row)` pairs plus the
  auto-increment counter `nextId`; each row holds the two JSON document
  columns (`metadata`, `content`).  `JSON.stringify`/`JSON.parse` at the
  column boundary are mutually inverse on JSON-serializable documents and are
  modelled as the identity: rows store the document values themselves.
* The filesystem is a list of `(absolute path, bytes)` pairs, a path being a
  list of components.  Directories exist implicitly as proper prefixes of
  file paths, which matches how `fs-extra.pathExists` is used by the class.
* `path.join` resolves `..` and `.` segments; this is modelled by
  `normalize`.  Filenames arrive as strings and are split on `/` by
  `splitComponents` (the char-level recursion avoids the opaque builtin
  string functions).
* Each file-touching operation returns, besides its result and the new
  state, a trace of the validation / filesystem / database events it
  performs, in program order.  The temporal and safety claims are stated
  over these traces.
-/

deriving instance DecidableEq for Except

namespace ChipfabrikStorage

abbrev FsPath := List String

abbrev ContentId := Nat

abbrev Bytes := List Nat

/-- Opaque JSON parameters document, represented by its serialized form. -/
abbrev ContentParameters := String

/-- Library identifier as in `ILibraryName` (the class compares
`machineName` only). -/
structure LibraryName where
  machineName : String
  majorVersion : Nat
  minorVersion : Nat
deriving DecidableEq

/-- The part of the opaque metadata document that the storage class reads:
the `mainLibrary` field and the dependency list consumed by the dependency
predicate. -/
structure ContentMetadata where
  mainLibrary : String
  dependencies : List LibraryName
deriving DecidableEq

/-- One row of the `content` table: the two JSON document columns. -/
structure Row where
  metadata : ContentMetadata
  content : ContentParameters
deriving DecidableEq

/-- The whole storage state: configured content root, the relational table
(rows plus auto-increment counter) and the filesystem. -/
structure StorageState where
  contentPath : FsPath
  rows : List (ContentId × Row)
  nextId : ContentId
  files : List (FsPath × Bytes)
deriving DecidableEq

/-- Errors surfaced by the operations: `invalidFilename` from filename
validation, `h5pError` with a translation code and an HTTP status (the
class only ever uses status 404), `fsError` for a low-level filesystem
failure. -/
inductive StorageError where
  | invalidFilename (name : String)
  | h5pError (code : String) (status : Nat)
  | fsError
deriving DecidableEq

/-- Events recorded by the file-touching operations, in program order. -/
inductive Event where
  | evCheckFilename (name : String)
  | evPathExists (p : FsPath)
  | evEnsureDir (p : FsPath)
  | evWriteFile (p : FsPath)
  | evRemove (p : FsPath)
  | evStat (p : FsPath)
  | evReadStream (p : FsPath)
  | evDbDelete (id : ContentId)
deriving DecidableEq

/-- The path touched by a filesystem event; `none` for validation and
database events. -/
def fsEventPath : Event → Option FsPath
  | .evPathExists p => some p
  | .evEnsureDir p => some p
  | .evWriteFile p => some p
  | .evRemove p => some p
  | .evStat p => some p
  | .evReadStream p => some p
  | _ => none

/-- Result of a file-touching operation: outcome, successor state and the
event trace. -/
structure FileOpResult (α : Type) where
  result : Except StorageError α
  state : StorageState
  trace : List Event

/-- Splits a character list at every `/`, like the string split used by
`path` handling (always returns at least one component). -/
def splitCharList : List Char → List (List Char)
  | [] => [[]]
  | c :: cs =>
    if c = '/' then [] :: splitCharList cs
    else
      match splitCharList cs with
      | [] => [[c]]
      | hd :: tl => (c :: hd) :: tl

/-- Path components of a filename string. -/
def splitComponents (f : String) : List String :=
  (splitCharList f.toList).map (fun cs => String.mk cs)

/-- A path component that neither climbs (`..`) nor is a degenerate
relative marker (`.` or the empty component produced by `//`, a leading
`/`, or the empty name). -/
def goodComponent (c : String) : Bool :=
  !(c == ".." || c == "." || c == "")

/-- Modelled from the spec: `checkFilename` from
`implementation/fs/filenameUtils` is not under `src/`; per the spec it
"fails with InvalidFilename if `name` contains path-traversal sequences,
absolute-path markers, disallowed characters, or is empty".  Traversal
sequences are `..` components; a leading `/` (which yields an empty first
component) is the absolute-path marker; `.` and empty components are
treated as disallowed relative markers (this also rejects the empty name);
the backslash stands for the disallowed-character class. -/
def checkFilename (name : String) : Bool :=
  (splitComponents name).all goodComponent &&
  !(name.toList.any (fun ch => ch == '\\'))

/-- One step of `path.join` normalization: `..` pops a component, `.` and
empty components vanish, anything else is appended. -/
def normStep (acc : FsPath) (c : String) : FsPath :=
  if c == ".." then acc.dropLast
  else if c == "." || c == "" then acc
  else acc ++ [c]

/-- Resolution of `..` / `.` / empty segments, as done by `path.join`. -/
def normalize (p : FsPath) : FsPath := p.foldl normStep []

/-- The un-normalized private directory of a content id:
`<contentPath>/<contentId>`. -/
def baseDir (st : StorageState) (cid : ContentId) : FsPath :=
  st.contentPath ++ [toString cid]

/-- Directory of a content id as computed by
`path.join(contentPath, contentId)`. -/
def contentDir (st : StorageState) (cid : ContentId) : FsPath :=
  normalize (baseDir st cid)

/-- Full path of a file as computed by
`path.join(contentPath, contentId, filename)`. -/
def filePath (st : StorageState) (cid : ContentId) (f : String) : FsPath :=
  normalize (baseDir st cid ++ splitComponents f)

/-- Model of `fsExtra.pathExists`: true iff the path is a regular file or
a (necessarily non-empty) directory, i.e. a prefix of some stored file. -/
def pathExistsB (st : StorageState) (p : FsPath) : Bool :=
  st.files.any (fun fb => p.isPrefixOf fb.1)

/-- Bytes of the regular file at `p`, if any. -/
def getFileBytes (st : StorageState) (p : FsPath) : Option Bytes :=
  (st.files.find? (fun fb => fb.1 == p)).map (fun fb => fb.2)

/-- Model of a streamed write to `p` (truncates and replaces). -/
def writeFileFs (st : StorageState) (p : FsPath) (bytes : Bytes) : StorageState :=
  { st with files := st.files.filter (fun fb => !(fb.1 == p)) ++ [(p, bytes)] }

/-- Model of `fsExtra.remove`: recursively removes the file or directory
at `p`. -/
def removeFs (st : StorageState) (p : FsPath) : StorageState :=
  { st with files := st.files.filter (fun fb => !(p.isPrefixOf fb.1)) }

/-- Row lookup by id (`SELECT ... WHERE id = ?`). -/
def findRow (rows : List (ContentId × Row)) (cid : ContentId) : Option (ContentId × Row) :=
  rows.find? (fun r => r.1 == cid)

/-- `addContent`: with an id, a plain `UPDATE ... WHERE id = ?` (touching
no row when the id is absent) resolving the supplied id; without an id, an
`INSERT` resolving the generated `insertId`. -/
def addContent (st : StorageState) (metadata : ContentMetadata)
    (content : ContentParameters) (contentId : Option ContentId) :
    ContentId × StorageState :=
  match contentId with
  | some cid =>
    (cid,
      { st with
          rows := st.rows.map (fun r =>
            if r.1 == cid then (r.1, ⟨metadata, content⟩) else r) })
  | none =>
    (st.nextId,
      { st with
          rows := st.rows ++ [(st.nextId, ⟨metadata, content⟩)],
          nextId := st.nextId + 1 })

/-- `contentExists`: `SELECT count(*) ... WHERE id = ?`, false iff the
count is zero. -/
def contentExists (st : StorageState) (cid : ContentId) : Bool :=
  let count := st.rows.countP (fun r => r.1 == cid)
  if count = 0 then false else true

/-- `getMetadata`: the parsed metadata column, `none` when no row is
found. -/
def getMetadata (st : StorageState) (cid : ContentId) : Option ContentMetadata :=
  (findRow st.rows cid).map (fun r => r.2.metadata)

/-- `getParameters`: the parsed content column, `none` when no row is
found. -/
def getParameters (st : StorageState) (cid : ContentId) : Option ContentParameters :=
  (findRow st.rows cid).map (fun r => r.2.content)

/-- `listContent`: `SELECT id FROM content WHERE metadata IS NOT NULL`
(the metadata column is declared NOT NULL, so every row qualifies). -/
def listContent (st : StorageState) : List ContentId :=
  st.rows.map (fun r => r.1)

/-- Modelled from the spec: `hasDependencyOn` from
`helpers/DependencyChecker` is not under `src/`; per the spec it is the
dependency-graph predicate `hasDependencyOn(metadataDocument,
libraryIdentifier) -> bool`, true iff the dependency list of the metadata
references the library. -/
def hasDependencyOn (metadata : ContentMetadata) (library : LibraryName) : Bool :=
  metadata.dependencies.any (fun d => d == library)

/-- Usage statistics returned by `getUsage`. -/
structure Usage where
  asDependency : Nat
  asMainLibrary : Nat
deriving DecidableEq

/-- Classification of one metadata document inside the `getUsage` loop,
exactly as in the source: nothing is counted unless `hasDependencyOn`
holds, and the `mainLibrary` comparison only chooses the bucket. -/
def usageStep (library : LibraryName) (acc : Usage)
    (contentMetadata : ContentMetadata) : Usage :=
  let isMainLibrary := contentMetadata.mainLibrary == library.machineName
  if hasDependencyOn contentMetadata library then
    if isMainLibrary then { acc with asMainLibrary := acc.asMainLibrary + 1 }
    else { acc with asDependency := acc.asDependency + 1 }
  else acc

/-- `getUsage`: iterates `listContent`, loads each metadata document and
classifies it (ids coming from `listContent` always resolve, so the `none`
branch is unreachable). -/
def getUsage (st : StorageState) (library : LibraryName) : Usage :=
  (listContent st).foldl
    (fun acc contentId =>
      match getMetadata st contentId with
      | some contentMetadata => usageStep library acc contentMetadata
      | none => acc)
    ⟨0, 0⟩

/-- `addFile`: validates the filename, then `ensureDir` on the parent
directory and a streamed write to the joined path. -/
def addFile (st : StorageState) (cid : ContentId) (filename : String)
    (bytes : Bytes) : FileOpResult Unit :=
  if checkFilename filename then
    let fullPath := filePath st cid filename
    ⟨.ok (), writeFileFs st fullPath bytes,
      [.evCheckFilename filename, .evEnsureDir fullPath.dropLast,
        .evWriteFile fullPath]⟩
  else ⟨.error (.invalidFilename filename), st, [.evCheckFilename filename]⟩

/-- `deleteFile`: validates the filename, throws the 404 `H5pError` when
`pathExists` is false, otherwise removes the path recursively. -/
def deleteFile (st : StorageState) (cid : ContentId) (filename : String) :
    FileOpResult Unit :=
  if checkFilename filename then
    let absolutePath := filePath st cid filename
    if pathExistsB st absolutePath then
      ⟨.ok (), removeFs st absolutePath,
        [.evCheckFilename filename, .evPathExists absolutePath,
          .evRemove absolutePath]⟩
    else
      ⟨.error (.h5pError
          "storage-file-implementations:delete-content-file-not-found" 404),
        st,
        [.evCheckFilename filename, .evPathExists absolutePath]⟩
  else ⟨.error (.invalidFilename filename), st, [.evCheckFilename filename]⟩

/-- `fileExists`: validates the filename (a validation throw rejects the
promise), resolves `pathExists` of the joined path when the content id is
defined, and `false` otherwise. -/
def fileExists (st : StorageState) (contentId : Option ContentId)
    (filename : String) : FileOpResult Bool :=
  if checkFilename filename then
    match contentId with
    | some cid =>
      let p := filePath st cid filename
      ⟨.ok (pathExistsB st p), st,
        [.evCheckFilename filename, .evPathExists p]⟩
    | none => ⟨.ok false, st, [.evCheckFilename filename]⟩
  else ⟨.error (.invalidFilename filename), st, [.evCheckFilename filename]⟩

/-- `getFileStats`: existence check through `fileExists`, then `stat`
(modelled as the byte length of the file). -/
def getFileStats (st : StorageState) (cid : ContentId) (file : String) :
    FileOpResult Nat :=
  let fe := fileExists st (some cid) file
  match fe.result with
  | .error e => ⟨.error e, st, fe.trace⟩
  | .ok false => ⟨.error (.h5pError "content-file-missing" 404), st, fe.trace⟩
  | .ok true =>
    let p := filePath st cid file
    ⟨.ok (((getFileBytes st p).getD []).length), st, fe.trace ++ [.evStat p]⟩

/-- Model of `createReadStream` with `start`/`end` options: `start`
defaults to 0, `end` is inclusive and defaults to the end of file. -/
def streamSlice (bytes : Bytes) (rangeStart rangeEnd : Option Nat) : Bytes :=
  let s := rangeStart.getD 0
  match rangeEnd with
  | none => bytes.drop s
  | some e => (bytes.drop s).take (e + 1 - s)

/-- `getFileStream`: existence check through `fileExists`, then a ranged
read of the joined path (a directory at that path makes the stream fail at
read time). -/
def getFileStream (st : StorageState) (cid : ContentId) (file : String)
    (rangeStart rangeEnd : Option Nat) : FileOpResult Bytes :=
  let fe := fileExists st (some cid) file
  match fe.result with
  | .error e => ⟨.error e, st, fe.trace⟩
  | .ok false => ⟨.error (.h5pError "content-file-missing" 404), st, fe.trace⟩
  | .ok true =>
    let p := filePath st cid file
    match getFileBytes st p with
    | some bytes =>
      ⟨.ok (streamSlice bytes rangeStart rangeEnd), st,
        fe.trace ++ [.evReadStream p]⟩
    | none => ⟨.error .fsError, st, fe.trace ++ [.evReadStream p]⟩

/-- `deleteContent`: removes the content directory when it exists, then
issues the row `DELETE` (in that order). -/
def deleteContent (st : StorageState) (cid : ContentId) : FileOpResult Unit :=
  let contentPath := contentDir st cid
  if pathExistsB st contentPath then
    let st1 := removeFs st contentPath
    ⟨.ok (),
      { st1 with rows := st1.rows.filter (fun r => !(r.1 == cid)) },
      [.evPathExists contentPath, .evRemove contentPath, .evDbDelete cid]⟩
  else
    ⟨.ok (),
      { st with rows := st.rows.filter (fun r => !(r.1 == cid)) },
      [.evPathExists contentPath, .evDbDelete cid]⟩

/-- Whether a component is hidden in the glob sense (starts with a dot). -/
def hiddenComponent (c : String) : Bool :=
  match c.toList with
  | [] => false
  | ch :: _ => ch == '.'

/-- Relative paths (as component lists) matched by the glob pattern
`**/*.*` with `nodir: true`: every component is non-hidden (glob `*` does
not match a leading dot) and the basename contains a dot. -/
def globMatch (rel : FsPath) : Bool :=
  match rel.getLast? with
  | none => false
  | some base =>
    rel.all (fun c => !(hiddenComponent c)) && base.toList.any (fun ch => ch == '.')

/-- `listFiles`: glob `path.join(contentDir, '**', '*.*')` with
`nodir: true`, mapped back to paths relative to the content directory. -/
def listFiles (st : StorageState) (cid : ContentId) : List FsPath :=
  let dir := contentDir st cid
  st.files.filterMap (fun fb =>
    if dir.isPrefixOf fb.1 then
      let rel := fb.1.drop dir.length
      if globMatch rel then some rel else none
    else none)

/-- Confinement of a trace: every filesystem access stays at or below
`dir`. -/
def confinedTo (dir : FsPath) (t : List Event) : Prop :=
  ∀ e ∈ t, ∀ p, fsEventPath e = some p → dir <+: p

/-- A trace that performs no filesystem access at all. -/
def noFsAccess (t : List Event) : Prop :=
  ∀ e ∈ t, fsEventPath e = none

/-- Discipline of a filename-taking operation: the filename validation is
the first event of the trace; a rejected filename means the operation
errors and the trace contains no filesystem access; and every filesystem
access of the trace stays inside `dir`. -/
def validatedOp {α : Type} (dir : FsPath) (f : String) (r : FileOpResult α) : Prop :=
  r.trace.head? = some (Event.evCheckFilename f) ∧
  (checkFilename f = false →
    (∃ e, r.result = Except.error e) ∧ noFsAccess r.trace) ∧
  confinedTo dir r.trace

/-- Library identifier used by the concrete fixtures. -/
def fixtureLib : LibraryName := ⟨"H5P.Lib", 1, 0⟩

/-- Fixture: a single content item whose `mainLibrary` equals the queried
library identifier but whose dependency list does not reference it. -/
def mainOnlyState : StorageState :=
  ⟨["root"], [(1, ⟨⟨"H5P.Lib", []⟩, "p1"⟩)], 2, []⟩

/-- Fixture: three content items — one with `mainLibrary` equal to the
library (and depending on it), one depending on it without being main, one
unrelated. -/
def usageFixtureState : StorageState :=
  ⟨["root"],
    [(1, ⟨⟨"H5P.Lib", [fixtureLib]⟩, "p1"⟩),
     (2, ⟨⟨"H5P.Other", [fixtureLib]⟩, "p2"⟩),
     (3, ⟨⟨"H5P.X", []⟩, "p3"⟩)], 4, []⟩

/-- Fixture: a single regular file named `README` (no dot in the name)
inside the directory of content id 1. -/
def extensionlessState : StorageState :=
  ⟨["root"], [], 1, [(["root", "1", "README"], [65])]⟩

/-- Fixture: a regular file at `sub/b.txt` under content id 1, so that
`sub` names a directory and not a regular file. -/
def dirOnlyState : StorageState :=
  ⟨["root"], [], 1, [(["root", "1", "sub", "b.txt"], [1])]⟩

/-- Fixture: a regular file at `del.txt` under content id 2. -/
def oneFileState : StorageState :=
  ⟨["root"], [], 1, [(["root", "2", "del.txt"], [5])]⟩

/-- Fixture: an empty store (no rows, no files). -/
def emptyState : StorageState := ⟨["root"], [], 1, []⟩

/-- Twenty distinct bytes used by the range-read fixture. -/
def rangeBytes : Bytes := List.range 20

/-- Fixture: a 20-byte regular file at `f.bin` under content id 1. -/
def rangeState : StorageState :=
  ⟨["root"], [], 1, [(["root", "1", "f.bin"], rangeBytes)]⟩

theorem splitCharList_ne_nil (cs : List Char) : splitCharList cs ≠ [] := by
  match cs with
  | [] => simp [splitCharList]
  | c :: cs =>
    rw [splitCharList]
    split
    · simp
    · split <;> simp

theorem splitComponents_ne_nil (f : String) : splitComponents f ≠ [] := by
  unfold splitComponents
  simp [splitCharList_ne_nil]

theorem checkFilename_good {f : String} (h : checkFilename f = true) :
    ∀ c ∈ splitComponents f, goodComponent c = true := by
  unfold checkFilename at h
  rw [Bool.and_eq_true, List.all_eq_true] at h
  exact h.1

theorem foldl_normStep_good {p : FsPath} (h : ∀ c ∈ p, goodComponent c = true) :
    ∀ acc, p.foldl normStep acc = acc ++ p := by
  induction p with
  | nil => simp
  | cons c p ih =>
    intro acc
    have hc : goodComponent c = true := h c (List.mem_cons_self c p)
    have hp : ∀ x ∈ p, goodComponent x = true :=
      fun x hx => h x (List.mem_cons_of_mem c hx)
    unfold goodComponent at hc
    rw [Bool.not_eq_true', Bool.or_eq_false_iff, Bool.or_eq_false_iff] at hc
    simp only [List.foldl_cons]
    rw [show normStep acc c = acc ++ [c] by
      unfold normStep
      rw [hc.1.1, hc.1.2, hc.2]
      simp]
    rw [ih hp (acc ++ [c]), List.append_assoc]
    rfl

theorem contentDir_eq_of_good {st : StorageState} {cid : ContentId}
    (hgood : ∀ c ∈ baseDir st cid, goodComponent c = true) :
    contentDir st cid = baseDir st cid := by
  unfold contentDir normalize
  rw [foldl_normStep_good hgood []]
  rfl

theorem filePath_eq_of_good {st : StorageState} {cid : ContentId} {f : String}
    (hgood : ∀ c ∈ baseDir st cid, goodComponent c = true)
    (hck : checkFilename f = true) :
    filePath st cid f = baseDir st cid ++ splitComponents f := by
  unfold filePath normalize
  rw [List.foldl_append, foldl_normStep_good hgood [],
    foldl_normStep_good (checkFilename_good hck)]
  rfl

theorem deleteContent_result (st : StorageState) (cid : ContentId) :
    (deleteContent st cid).result = .ok () := by
  by_cases hpe : pathExistsB st (contentDir st cid) = true <;>
    simp [deleteContent, hpe]

theorem deleteContent_contentPath (st : StorageState) (cid : ContentId) :
    (deleteContent st cid).state.contentPath = st.contentPath := by
  by_cases hpe : pathExistsB st (contentDir st cid) = true <;>
    simp [deleteContent, removeFs, hpe]

theorem deleteContent_rows (st : StorageState) (cid : ContentId) :
    (deleteContent st cid).state.rows
      = st.rows.filter (fun r => !(r.1 == cid)) := by
  by_cases hpe : pathExistsB st (contentDir st cid) = true <;>
    simp [deleteContent, removeFs, hpe]

theorem deleteContent_files_no_prefix (st : StorageState) (cid : ContentId) :
    ∀ fb ∈ (deleteContent st cid).state.files,
      ¬(contentDir st cid <+: fb.1) := by
  intro fb hfb
  unfold deleteContent at hfb
  by_cases hpe : pathExistsB st (contentDir st cid) = true
  · rw [if_pos hpe] at hfb
    simp only [removeFs] at hfb
    have hx : (contentDir st cid).isPrefixOf fb.1 = false := by
      simpa using (List.mem_filter.mp hfb).2
    rw [← List.isPrefixOf_iff_prefix]
    simp [hx]
  · rw [if_neg hpe] at hfb
    simp only at hfb
    rw [Bool.not_eq_true] at hpe
    unfold pathExistsB at hpe
    rw [List.any_eq_false] at hpe
    have := hpe fb hfb
    simpa [List.isPrefixOf_iff_prefix] using this

theorem contentDir_congr {st st' : StorageState} (cid : ContentId)
    (h : st'.contentPath = st.contentPath) :
    contentDir st' cid = contentDir st cid := by
  unfold contentDir baseDir
  rw [h]

/-- C4: for every state and content id, deleting twice succeeds both
times, the second call changes nothing, and afterwards `contentExists` is
false and `listFiles` is empty. -/
theorem c4_deleteContent_idempotent (st : StorageState) (cid : ContentId) :
    (deleteContent st cid).result = .ok () ∧
    (deleteContent (deleteContent st cid).state cid).result = .ok () ∧
    (deleteContent (deleteContent st cid).state cid).state
      = (deleteContent st cid).state ∧
    contentExists (deleteContent (deleteContent st cid).state cid).state cid
      = false ∧
    listFiles (deleteContent (deleteContent st cid).state cid).state cid
      = [] := by
  set s1 := (deleteContent st cid).state with hs1
  have hdir : contentDir s1 cid = contentDir st cid :=
    contentDir_congr cid (deleteContent_contentPath st cid)
  have hnopre : ∀ fb ∈ s1.files, ¬(contentDir st cid <+: fb.1) :=
    deleteContent_files_no_prefix st cid
  have hpe1 : pathExistsB s1 (contentDir s1 cid) = false := by
    rw [hdir]
    unfold pathExistsB
    rw [List.any_eq_false]
    intro fb hfb
    simp [List.isPrefixOf_iff_prefix, hnopre fb hfb]
  have hrows : s1.rows.filter (fun r => !(r.1 == cid)) = s1.rows := by
    apply List.filter_eq_self.mpr
    intro r hr
    rw [hs1, deleteContent_rows] at hr
    exact (List.mem_filter.mp hr).2
  have hstate2 : (deleteContent s1 cid).state = s1 := by
    simp [deleteContent, hpe1, hrows]
  refine ⟨deleteContent_result st cid, deleteContent_result s1 cid, hstate2, ?_, ?_⟩
  · rw [hstate2]
    unfold contentExists
    have hz : s1.rows.countP (fun r => r.1 == cid) = 0 := by
      rw [List.countP_eq_zero]
      intro r hr
      rw [hs1, deleteContent_rows] at hr
      have := (List.mem_filter.mp hr).2
      simpa using this
    simp [hz]
  · rw [hstate2]
    unfold listFiles
    rw [List.filterMap_eq_nil_iff]
    intro fb hfb
    rw [if_neg (by simp [List.isPrefixOf_iff_prefix, hdir, hnopre fb hfb])]

/-- C5: inserting fresh content (no id supplied) and reading back the two
documents through the store returns them unchanged. -/
theorem c5_addContent_roundtrip (st : StorageState) (m : ContentMetadata)
    (p : ContentParameters) (h : st.nextId ∉ st.rows.map Prod.fst) :
    getMetadata (addContent st m p none).2 (addContent st m p none).1 = some m ∧
    getParameters (addContent st m p none).2 (addContent st m p none).1
      = some p := by
  have hfind : findRow (st.rows ++ [(st.nextId, ⟨m, p⟩)]) st.nextId
      = some (st.nextId, ⟨m, p⟩) := by
    unfold findRow
    rw [List.find?_append]
    have hnone : st.rows.find? (fun r => r.1 == st.nextId) = none := by
      rw [List.find?_eq_none]
      intro r hr
      simp only [beq_iff_eq]
      intro heq
      exact h (heq ▸ List.mem_map_of_mem Prod.fst hr)
    rw [hnone]
    simp
  constructor
  · unfold getMetadata addContent
    simp only
    rw [hfind]
    rfl
  · unfold getParameters addContent
    simp only
    rw [hfind]
    rfl

/-- C5 witness at a concrete fresh store. -/
theorem c5_addContent_roundtrip_witness :
    emptyState.nextId ∉ emptyState.rows.map Prod.fst ∧
    (getMetadata (addContent emptyState ⟨"H5P.Lib", []⟩ "params" none).2
        (addContent emptyState ⟨"H5P.Lib", []⟩ "params" none).1
      = some ⟨"H5P.Lib", []⟩ ∧
    getParameters (addContent emptyState ⟨"H5P.Lib", []⟩ "params" none).2
        (addContent emptyState ⟨"H5P.Lib", []⟩ "params" none).1
      = some "params") :=
  ⟨by decide, c5_addContent_roundtrip emptyState ⟨"H5P.Lib", []⟩ "params" (by decide)⟩

/-- C7: with a validated filename and an undefined content id,
`fileExists` resolves `false` instead of raising. -/
theorem c7_fileExists_undefined (st : StorageState) (f : String)
    (h : checkFilename f = true) :
    (fileExists st none f).result = .ok false := by
  unfold fileExists
  rw [if_pos h]

/-- C7 witness at a concrete store and filename. -/
theorem c7_fileExists_undefined_witness :
    checkFilename "a.txt" = true ∧
    (fileExists emptyState none "a.txt").result = .ok false :=
  ⟨by decide, c7_fileExists_undefined emptyState "a.txt" (by decide)⟩

theorem rows_map_update_id (rows : List (ContentId × Row)) (cid : ContentId)
    (row : Row) (h : cid ∉ rows.map Prod.fst) :
    rows.map (fun r => if r.1 == cid then (r.1, row) else r) = rows := by
  induction rows with
  | nil => rfl
  | cons r rs ih =>
    have hne : (r.1 == cid) = false := by
      simp only [beq_eq_false_iff_ne, ne_eq]
      intro heq
      refine h ?_
      rw [List.map_cons, heq]
      exact List.mem_cons_self _ _
    have htail : cid ∉ rs.map Prod.fst := by
      intro hmem
      refine h ?_
      rw [List.map_cons]
      exact List.mem_cons_of_mem _ hmem
    rw [List.map_cons,
      show (if r.1 == cid then (r.1, row) else r) = r from by rw [hne]; simp,
      ih htail]

/-- C10: `addContent` with a supplied id for which no row exists resolves
that id, leaves the table unchanged (the UPDATE touches no row), and
afterwards the id still neither exists nor is listed. -/
theorem c10_addContent_update_only (st : StorageState) (m : ContentMetadata)
    (p : ContentParameters) (cid : ContentId)
    (h : cid ∉ st.rows.map Prod.fst) :
    (addContent st m p (some cid)).1 = cid ∧
    (addContent st m p (some cid)).2.rows = st.rows ∧
    contentExists (addContent st m p (some cid)).2 cid = false ∧
    cid ∉ listContent (addContent st m p (some cid)).2 := by
  have hrows : (addContent st m p (some cid)).2.rows = st.rows := by
    unfold addContent
    simp only
    exact rows_map_update_id st.rows cid ⟨m, p⟩ h
  refine ⟨rfl, hrows, ?_, ?_⟩
  · unfold contentExists
    rw [hrows]
    have hz : st.rows.countP (fun r => r.1 == cid) = 0 := by
      rw [List.countP_eq_zero]
      intro r hr
      simp only [beq_iff_eq]
      intro heq
      exact h (heq ▸ List.mem_map_of_mem Prod.fst hr)
    simp [hz]
  · unfold listContent
    rw [hrows]
    intro hmem
    rw [List.mem_map] at hmem
    obtain ⟨r, hr, hre⟩ := hmem
    exact h (hre ▸ List.mem_map_of_mem Prod.fst hr)

/-- C10 witness at a concrete store and fresh id. -/
theorem c10_addContent_update_only_witness :
    (5 : ContentId) ∉ emptyState.rows.map Prod.fst ∧
    ((addContent emptyState ⟨"H5P.Lib", []⟩ "p" (some 5)).1 = 5 ∧
    (addContent emptyState ⟨"H5P.Lib", []⟩ "p" (some 5)).2.rows = emptyState.rows ∧
    contentExists (addContent emptyState ⟨"H5P.Lib", []⟩ "p" (some 5)).2 5 = false ∧
    5 ∉ listContent (addContent emptyState ⟨"H5P.Lib", []⟩ "p" (some 5)).2) :=
  ⟨by decide, c10_addContent_update_only emptyState ⟨"H5P.Lib", []⟩ "p" 5 (by decide)⟩

/-- C3: wherever the row `DELETE` appears in the trace of
`deleteContent`, no directory removal happens after it, and when the
content directory existed its removal is already in the part of the trace
that precedes the row `DELETE`. -/
theorem c3_deleteContent_order (st : StorageState) (cid : ContentId)
    (l1 l2 : List Event)
    (h : (deleteContent st cid).trace = l1 ++ Event.evDbDelete cid :: l2) :
    (∀ p, Event.evRemove p ∉ l2) ∧
    (pathExistsB st (contentDir st cid) = true →
      Event.evRemove (contentDir st cid) ∈ l1) := by
  by_cases hpe : pathExistsB st (contentDir st cid) = true
  · rw [show (deleteContent st cid).trace
        = [Event.evPathExists (contentDir st cid),
            Event.evRemove (contentDir st cid), Event.evDbDelete cid] from by
      simp [deleteContent, hpe]] at h
    match l1 with
    | [] => simp at h
    | [a] => simp at h
    | [a, b] =>
      simp only [List.cons_append, List.nil_append, List.cons.injEq] at h
      obtain ⟨ha, hb, -, hl2⟩ := h
      subst hl2
      refine ⟨by simp, fun _ => ?_⟩
      rw [hb]
      simp [List.mem_cons]
    | a :: b :: c :: l1' => simp [List.cons.injEq] at h
  · rw [show (deleteContent st cid).trace
        = [Event.evPathExists (contentDir st cid), Event.evDbDelete cid] from by
      simp [deleteContent, hpe]] at h
    match l1 with
    | [] => simp at h
    | [a] =>
      simp only [List.cons_append, List.nil_append, List.cons.injEq] at h
      obtain ⟨ha, -, hl2⟩ := h
      subst hl2
      exact ⟨by simp, fun hc => absurd hc hpe⟩
    | a :: b :: l1' => simp [List.cons.injEq] at h

/-- C3 witness: a store where the content directory exists, split at the
row `DELETE` event. -/
theorem c3_deleteContent_order_witness :
    (deleteContent rangeState 1).trace
        = [Event.evPathExists ["root", "1"], Event.evRemove ["root", "1"]]
          ++ Event.evDbDelete 1 :: [] ∧
    ((∀ p, Event.evRemove p ∉ ([] : List Event)) ∧
      (pathExistsB rangeState (contentDir rangeState 1) = true →
        Event.evRemove (contentDir rangeState 1)
          ∈ [Event.evPathExists ["root", "1"], Event.evRemove ["root", "1"]])) :=
  ⟨by decide,
    c3_deleteContent_order rangeState 1
      [Event.evPathExists ["root", "1"], Event.evRemove ["root", "1"]] []
      (by decide)⟩

theorem usage_foldl_counts (st : StorageState) (lib : LibraryName)
    (ids : List ContentId) (acc : Usage) :
    ids.foldl
        (fun acc contentId =>
          match getMetadata st contentId with
          | some contentMetadata => usageStep lib acc contentMetadata
          | none => acc)
        acc
      = ⟨acc.asDependency
          + (ids.filterMap (getMetadata st)).countP
              (fun m => hasDependencyOn m lib
                && !(m.mainLibrary == lib.machineName)),
        acc.asMainLibrary
          + (ids.filterMap (getMetadata st)).countP
              (fun m => hasDependencyOn m lib
                && (m.mainLibrary == lib.machineName))⟩ := by
  induction ids generalizing acc with
  | nil => simp
  | cons cid ids ih =>
    simp only [List.foldl_cons, List.filterMap_cons]
    cases hm : getMetadata st cid with
    | none => rw [ih]
    | some m =>
      rw [ih]
      unfold usageStep
      cases hd : hasDependencyOn m lib <;>
        cases hmain : m.mainLibrary == lib.machineName <;>
        simp [List.countP_cons, hd, hmain] <;> omega

theorem findRow_filterMap (rows : List (ContentId × Row))
    (hnd : (rows.map Prod.fst).Nodup) :
    (rows.map Prod.fst).filterMap
        (fun cid => (findRow rows cid).map (fun r => r.2.metadata))
      = rows.map (fun r => r.2.metadata) := by
  induction rows with
  | nil => rfl
  | cons r rs ih =>
    rw [List.map_cons, List.nodup_cons] at hnd
    obtain ⟨hne, hnd'⟩ := hnd
    rw [List.map_cons, List.map_cons, List.filterMap_cons]
    have hhead : findRow (r :: rs) r.1 = some r := by
      unfold findRow
      rw [List.find?_cons_of_pos]
      simp
    rw [hhead]
    simp only [Option.map_some']
    congr 1
    rw [List.filterMap_congr (g := fun cid => (findRow rs cid).map
        (fun r => r.2.metadata))]
    · exact ih hnd'
    · intro cid hcid
      have hne2 : (r.1 == cid) = false := by
        simp only [beq_eq_false_iff_ne, ne_eq]
        intro heq
        exact hne (heq ▸ hcid)
      unfold findRow
      rw [List.find?_cons]
      simp [hne2]

/-- C1 counterexample to the claim as stated: a stored item whose
`mainLibrary` equals the queried library identifier but whose dependency
list does not reference it is not counted at all — `asMainLibrary` stays
0, where the claim requires it to be incremented. -/
theorem c1_getUsage_counterexample :
    getMetadata mainOnlyState 1 = some ⟨fixtureLib.machineName, []⟩ ∧
    getUsage mainOnlyState fixtureLib = ⟨0, 0⟩ := by decide

/-- C1 as amended: over a table with unique ids, `getUsage` counts under
`asMainLibrary` exactly the items satisfying `hasDependencyOn` whose
`mainLibrary` equals the queried machine name, and under `asDependency`
exactly the items satisfying `hasDependencyOn` whose `mainLibrary` does
not; items failing `hasDependencyOn` are never counted. -/
theorem c1_getUsage_amended (st : StorageState) (lib : LibraryName)
    (hnd : (st.rows.map Prod.fst).Nodup) :
    getUsage st lib
      = ⟨st.rows.countP
            (fun r => hasDependencyOn r.2.metadata lib
              && !(r.2.metadata.mainLibrary == lib.machineName)),
          st.rows.countP
            (fun r => hasDependencyOn r.2.metadata lib
              && (r.2.metadata.mainLibrary == lib.machineName))⟩ := by
  unfold getUsage listContent
  rw [usage_foldl_counts]
  have hfm : (st.rows.map Prod.fst).filterMap (getMetadata st)
      = st.rows.map (fun r => r.2.metadata) := by
    rw [List.filterMap_congr (g := fun cid => (findRow st.rows cid).map
        (fun r => r.2.metadata))]
    · exact findRow_filterMap st.rows hnd
    · intro cid _
      rfl
  rw [show (st.rows.map (fun r => r.1)) = st.rows.map Prod.fst from rfl, hfm,
    List.countP_map, List.countP_map]
  simp [Function.comp_def]

/-- C1 witness: on the three-item fixture (main-and-dependent, dependent
only, unrelated) the amended classification yields
`asDependency = 1, asMainLibrary = 1`. -/
theorem c1_getUsage_amended_witness :
    (usageFixtureState.rows.map Prod.fst).Nodup ∧
    getUsage usageFixtureState fixtureLib = ⟨1, 1⟩ :=
  ⟨by decide,
    (c1_getUsage_amended usageFixtureState fixtureLib (by decide)).trans
      (by decide)⟩

/-- C2 counterexample to the claim as stated: a regular file named
`README` (no dot in its name) lies directly under the content directory,
yet `listFiles` returns the empty list, because the glob pattern `*.*`
only matches basenames containing a dot. -/
theorem c2_listFiles_counterexample :
    listFiles extensionlessState 1 = [] ∧
    extensionlessState.files
      = [(contentDir extensionlessState 1 ++ ["README"], [65])] := by decide

/-- C2 as amended: `listFiles` returns exactly the relative paths of the
regular files under the content directory that match the glob `**/*.*`
(no hidden component, basename containing a dot); in particular it never
returns directory entries, but it also misses regular files whose base
name has no dot. -/
theorem c2_listFiles_amended (st : StorageState) (cid : ContentId)
    (rel : FsPath) :
    rel ∈ listFiles st cid ↔
      globMatch rel = true ∧
        ∃ bs, (contentDir st cid ++ rel, bs) ∈ st.files := by
  simp only [listFiles]
  rw [List.mem_filterMap]
  constructor
  · rintro ⟨fb, hmem, hf⟩
    by_cases hpre : (contentDir st cid).isPrefixOf fb.1 = true
    · rw [if_pos hpre] at hf
      by_cases hg : globMatch (fb.1.drop (contentDir st cid).length) = true
      · rw [if_pos hg] at hf
        have hrel : fb.1.drop (contentDir st cid).length = rel :=
          Option.some.inj hf
        subst hrel
        have hpre' : contentDir st cid <+: fb.1 :=
          List.isPrefixOf_iff_prefix.mp hpre
        have happ : contentDir st cid
            ++ fb.1.drop (contentDir st cid).length = fb.1 :=
          List.prefix_iff_eq_append.mp hpre'
        exact ⟨hg, fb.2, by rw [happ]; exact hmem⟩
      · rw [if_neg hg] at hf
        cases hf
    · rw [if_neg hpre] at hf
      cases hf
  · rintro ⟨hg, bs, hmem⟩
    refine ⟨(contentDir st cid ++ rel, bs), hmem, ?_⟩
    have hpre : (contentDir st cid).isPrefixOf (contentDir st cid ++ rel)
        = true :=
      List.isPrefixOf_iff_prefix.mpr (List.prefix_append _ _)
    rw [if_pos hpre]
    simp only [List.drop_left]
    rw [if_pos hg]

/-- C8 counterexample to the claim as stated: `sub` names a directory (a
file lives at `sub/b.txt`), so no regular file exists at the joined path,
yet `deleteFile` succeeds instead of raising `FileNotFound` — because the
code only tests `pathExists`, which is also true for directories. -/
theorem c8_deleteFile_counterexample :
    getFileBytes dirOnlyState (filePath dirOnlyState 1 "sub") = none ∧
    (deleteFile dirOnlyState 1 "sub").result = .ok () := by decide

/-- C8 as amended: for a validated filename, `deleteFile` raises the 404
`FileNotFound` error if and only if nothing — neither a regular file nor
a directory — exists at the joined path; when something exists there it
succeeds and removes the path recursively. -/
theorem c8_deleteFile_amended (st : StorageState) (cid : ContentId)
    (f : String) (hck : checkFilename f = true) :
    ((deleteFile st cid f).result
        = .error (.h5pError
            "storage-file-implementations:delete-content-file-not-found" 404)
      ↔ pathExistsB st (filePath st cid f) = false) ∧
    (pathExistsB st (filePath st cid f) = true →
      (deleteFile st cid f).result = .ok () ∧
      (deleteFile st cid f).state.files
        = st.files.filter
            (fun fb => !((filePath st cid f).isPrefixOf fb.1))) := by
  by_cases hpe : pathExistsB st (filePath st cid f) = true
  · simp [deleteFile, hck, hpe, removeFs]
  · have hpe' : pathExistsB st (filePath st cid f) = false := by
      simpa using hpe
    simp [deleteFile, hck, hpe', removeFs]

/-- C8 witness: with an existing regular file the amended
characterization evaluates as expected. -/
theorem c8_deleteFile_amended_witness :
    checkFilename "del.txt" = true ∧
    ((((deleteFile oneFileState 2 "del.txt").result
        = .error (.h5pError
            "storage-file-implementations:delete-content-file-not-found" 404)
      ↔ pathExistsB oneFileState (filePath oneFileState 2 "del.txt") = false) ∧
    (pathExistsB oneFileState (filePath oneFileState 2 "del.txt") = true →
      (deleteFile oneFileState 2 "del.txt").result = .ok () ∧
      (deleteFile oneFileState 2 "del.txt").state.files
        = oneFileState.files.filter
            (fun fb =>
              !((filePath oneFileState 2 "del.txt").isPrefixOf fb.1))))) :=
  ⟨by decide, c8_deleteFile_amended oneFileState 2 "del.txt" (by decide)⟩

theorem getFileBytes_pathExists {st : StorageState} {p : FsPath} {bytes : Bytes}
    (h : getFileBytes st p = some bytes) : pathExistsB st p = true := by
  unfold getFileBytes at h
  cases hf : st.files.find? (fun fb => fb.1 == p) with
  | none => rw [hf] at h; cases h
  | some fb =>
    have hmem := List.mem_of_find?_eq_some hf
    have hp : fb.1 = p := by simpa using List.find?_some hf
    unfold pathExistsB
    rw [List.any_eq_true]
    refine ⟨fb, hmem, ?_⟩
    rw [hp]
    simp [List.isPrefixOf_iff_prefix]

/-- C9: a ranged `getFileStream` on an existing regular file yields
exactly the `rangeEnd - rangeStart + 1` bytes of the file from offset
`rangeStart` through `rangeEnd` inclusive. -/
theorem c9_getFileStream_range (st : StorageState) (cid : ContentId)
    (f : String) (bytes : Bytes) (rs re : Nat)
    (hck : checkFilename f = true)
    (hb : getFileBytes st (filePath st cid f) = some bytes)
    (hr : rs ≤ re) (hre : re < bytes.length) :
    (getFileStream st cid f (some rs) (some re)).result
        = .ok ((bytes.drop rs).take (re - rs + 1)) ∧
    ((bytes.drop rs).take (re - rs + 1)).length = re - rs + 1 ∧
    ∀ i < re - rs + 1,
      ((bytes.drop rs).take (re - rs + 1))[i]? = bytes[rs + i]? := by
  have hpe := getFileBytes_pathExists hb
  have h1 : re + 1 - rs = re - rs + 1 := by omega
  refine ⟨?_, ?_, ?_⟩
  · simp [getFileStream, fileExists, hck, hpe, hb, streamSlice, h1]
  · have hlt := List.length_take (re - rs + 1) (bytes.drop rs)
    rw [List.length_drop] at hlt
    omega
  · intro i hi
    rw [List.getElem?_take, if_pos hi, List.getElem?_drop]

/-- C9 witness: the 20-byte fixture read with range 10–19 returns exactly
the ten source bytes at offsets 10 through 19. -/
theorem c9_getFileStream_range_witness :
    checkFilename "f.bin" = true ∧
    getFileBytes rangeState (filePath rangeState 1 "f.bin") = some rangeBytes ∧
    10 ≤ 19 ∧ 19 < rangeBytes.length ∧
    ((getFileStream rangeState 1 "f.bin" (some 10) (some 19)).result
        = .ok ((rangeBytes.drop 10).take (19 - 10 + 1)) ∧
      ((rangeBytes.drop 10).take (19 - 10 + 1)).length = 19 - 10 + 1 ∧
      ∀ i < 19 - 10 + 1,
        ((rangeBytes.drop 10).take (19 - 10 + 1))[i]? = rangeBytes[10 + i]?) :=
  ⟨by decide, by decide, by decide, by decide,
    c9_getFileStream_range rangeState 1 "f.bin" rangeBytes 10 19
      (by decide) (by decide) (by decide) (by decide)⟩

theorem splitComponents_isEmpty (f : String) :
    (splitComponents f).isEmpty = false := by
  cases hc : splitComponents f with
  | nil => exact absurd hc (splitComponents_ne_nil f)
  | cons a l => rfl

theorem baseDir_prefix_filePath {st : StorageState} {cid : ContentId}
    {f : String} (hgood : ∀ c ∈ baseDir st cid, goodComponent c = true)
    (hck : checkFilename f = true) :
    baseDir st cid <+: filePath st cid f := by
  rw [filePath_eq_of_good hgood hck]
  exact List.prefix_append _ _

theorem baseDir_prefix_filePath_dropLast {st : StorageState}
    {cid : ContentId} {f : String}
    (hgood : ∀ c ∈ baseDir st cid, goodComponent c = true)
    (hck : checkFilename f = true) :
    baseDir st cid <+: (filePath st cid f).dropLast := by
  rw [filePath_eq_of_good hgood hck, List.dropLast_append,
    splitComponents_isEmpty]
  simp [List.prefix_append]

theorem validatedOp_mk {α : Type} (dir : FsPath) (f : String)
    (r : FileOpResult α)
    (hhead : r.trace.head? = some (.evCheckFilename f))
    (hinv : checkFilename f = false →
      r.result = .error (.invalidFilename f)
        ∧ r.trace = [.evCheckFilename f])
    (hconf : confinedTo dir r.trace) : validatedOp dir f r := by
  refine ⟨hhead, fun hck => ?_, hconf⟩
  obtain ⟨h1, h2⟩ := hinv hck
  refine ⟨⟨_, h1⟩, ?_⟩
  rw [h2]
  intro e he
  simp at he
  subst he
  rfl

theorem addFile_head (st : StorageState) (cid : ContentId) (f : String)
    (bytes : Bytes) :
    (addFile st cid f bytes).trace.head? = some (.evCheckFilename f) := by
  cases hck : checkFilename f <;> simp [addFile, hck]

theorem addFile_invalid (st : StorageState) (cid : ContentId) (f : String)
    (bytes : Bytes) (hck : checkFilename f = false) :
    (addFile st cid f bytes).result = .error (.invalidFilename f)
      ∧ (addFile st cid f bytes).trace = [.evCheckFilename f] := by
  simp [addFile, hck]

theorem addFile_trace_sub (st : StorageState) (cid : ContentId) (f : String)
    (bytes : Bytes) (hck : checkFilename f = true) :
    ∀ e ∈ (addFile st cid f bytes).trace,
      e = .evCheckFilename f
        ∨ e = .evEnsureDir (filePath st cid f).dropLast
        ∨ e = .evWriteFile (filePath st cid f) := by
  intro e he
  simp [addFile, hck] at he
  tauto

theorem deleteFile_head (st : StorageState) (cid : ContentId) (f : String) :
    (deleteFile st cid f).trace.head? = some (.evCheckFilename f) := by
  cases hck : checkFilename f
  · simp [deleteFile, hck]
  · cases hpe : pathExistsB st (filePath st cid f) <;>
      simp [deleteFile, hck, hpe]

theorem deleteFile_invalid (st : StorageState) (cid : ContentId) (f : String)
    (hck : checkFilename f = false) :
    (deleteFile st cid f).result = .error (.invalidFilename f)
      ∧ (deleteFile st cid f).trace = [.evCheckFilename f] := by
  simp [deleteFile, hck]

theorem deleteFile_trace_sub (st : StorageState) (cid : ContentId)
    (f : String) (hck : checkFilename f = true) :
    ∀ e ∈ (deleteFile st cid f).trace,
      e = .evCheckFilename f
        ∨ e = .evPathExists (filePath st cid f)
        ∨ e = .evRemove (filePath st cid f) := by
  intro e he
  cases hpe : pathExistsB st (filePath st cid f) <;>
    simp [deleteFile, hck, hpe] at he <;> tauto

theorem fileExists_head (st : StorageState) (cid : ContentId) (f : String) :
    (fileExists st (some cid) f).trace.head? = some (.evCheckFilename f) := by
  cases hck : checkFilename f <;> simp [fileExists, hck]

theorem fileExists_invalid (st : StorageState) (cid : ContentId) (f : String)
    (hck : checkFilename f = false) :
    (fileExists st (some cid) f).result = .error (.invalidFilename f)
      ∧ (fileExists st (some cid) f).trace = [.evCheckFilename f] := by
  simp [fileExists, hck]

theorem fileExists_trace_sub (st : StorageState) (cid : ContentId)
    (f : String) (hck : checkFilename f = true) :
    ∀ e ∈ (fileExists st (some cid) f).trace,
      e = .evCheckFilename f ∨ e = .evPathExists (filePath st cid f) := by
  intro e he
  simp [fileExists, hck] at he
  tauto

theorem getFileStats_head (st : StorageState) (cid : ContentId) (f : String) :
    (getFileStats st cid f).trace.head? = some (.evCheckFilename f) := by
  cases hck : checkFilename f
  · simp [getFileStats, fileExists, hck]
  · cases hpe : pathExistsB st (filePath st cid f) <;>
      simp [getFileStats, fileExists, hck, hpe]

theorem getFileStats_invalid (st : StorageState) (cid : ContentId)
    (f : String) (hck : checkFilename f = false) :
    (getFileStats st cid f).result = .error (.invalidFilename f)
      ∧ (getFileStats st cid f).trace = [.evCheckFilename f] := by
  simp [getFileStats, fileExists, hck]

theorem getFileStats_trace_sub (st : StorageState) (cid : ContentId)
    (f : String) (hck : checkFilename f = true) :
    ∀ e ∈ (getFileStats st cid f).trace,
      e = .evCheckFilename f
        ∨ e = .evPathExists (filePath st cid f)
        ∨ e = .evStat (filePath st cid f) := by
  intro e he
  cases hpe : pathExistsB st (filePath st cid f) <;>
    simp [getFileStats, fileExists, hck, hpe] at he <;> tauto

theorem getFileStream_head (st : StorageState) (cid : ContentId) (f : String)
    (rs re : Option Nat) :
    (getFileStream st cid f rs re).trace.head? = some (.evCheckFilename f) := by
  cases hck : checkFilename f
  · simp [getFileStream, fileExists, hck]
  · cases hpe : pathExistsB st (filePath st cid f)
    · simp [getFileStream, fileExists, hck, hpe]
    · cases hgb : getFileBytes st (filePath st cid f) <;>
        simp [getFileStream, fileExists, hck, hpe, hgb]

theorem getFileStream_invalid (st : StorageState) (cid : ContentId)
    (f : String) (rs re : Option Nat) (hck : checkFilename f = false) :
    (getFileStream st cid f rs re).result = .error (.invalidFilename f)
      ∧ (getFileStream st cid f rs re).trace = [.evCheckFilename f] := by
  simp [getFileStream, fileExists, hck]

theorem getFileStream_trace_sub (st : StorageState) (cid : ContentId)
    (f : String) (rs re : Option Nat) (hck : checkFilename f = true) :
    ∀ e ∈ (getFileStream st cid f rs re).trace,
      e = .evCheckFilename f
        ∨ e = .evPathExists (filePath st cid f)
        ∨ e = .evReadStream (filePath st cid f) := by
  intro e he
  cases hpe : pathExistsB st (filePath st cid f)
  · simp [getFileStream, fileExists, hck, hpe] at he
    tauto
  · cases hgb : getFileBytes st (filePath st cid f) <;>
      simp [getFileStream, fileExists, hck, hpe, hgb] at he <;> tauto

theorem validatedOp_addFile (st : StorageState) (cid : ContentId)
    (f : String) (bytes : Bytes)
    (hgood : ∀ c ∈ baseDir st cid, goodComponent c = true) :
    validatedOp (baseDir st cid) f (addFile st cid f bytes) := by
  refine validatedOp_mk _ _ _ (addFile_head st cid f bytes)
    (addFile_invalid st cid f bytes) ?_
  intro e he p hp
  cases hck : checkFilename f
  · rw [(addFile_invalid st cid f bytes hck).2] at he
    simp at he
    subst he
    simp [fsEventPath] at hp
  · rcases addFile_trace_sub st cid f bytes hck e he with he' | he' | he' <;>
      subst he'
    · simp [fsEventPath] at hp
    · simp only [fsEventPath, Option.some.injEq] at hp
      rw [← hp]
      exact baseDir_prefix_filePath_dropLast hgood hck
    · simp only [fsEventPath, Option.some.injEq] at hp
      rw [← hp]
      exact baseDir_prefix_filePath hgood hck

theorem validatedOp_deleteFile (st : StorageState) (cid : ContentId)
    (f : String)
    (hgood : ∀ c ∈ baseDir st cid, goodComponent c = true) :
    validatedOp (baseDir st cid) f (deleteFile st cid f) := by
  refine validatedOp_mk _ _ _ (deleteFile_head st cid f)
    (deleteFile_invalid st cid f) ?_
  intro e he p hp
  cases hck : checkFilename f
  · rw [(deleteFile_invalid st cid f hck).2] at he
    simp at he
    subst he
    simp [fsEventPath] at hp
  · rcases deleteFile_trace_sub st cid f hck e he with he' | he' | he' <;>
      subst he'
    · simp [fsEventPath] at hp
    · simp only [fsEventPath, Option.some.injEq] at hp
      rw [← hp]
      exact baseDir_prefix_filePath hgood hck
    · simp only [fsEventPath, Option.some.injEq] at hp
      rw [← hp]
      exact baseDir_prefix_filePath hgood hck

theorem validatedOp_fileExists (st : StorageState) (cid : ContentId)
    (f : String)
    (hgood : ∀ c ∈ baseDir st cid, goodComponent c = true) :
    validatedOp (baseDir st cid) f (fileExists st (some cid) f) := by
  refine validatedOp_mk _ _ _ (fileExists_head st cid f)
    (fileExists_invalid st cid f) ?_
  intro e he p hp
  cases hck : checkFilename f
  · rw [(fileExists_invalid st cid f hck).2] at he
    simp at he
    subst he
    simp [fsEventPath] at hp
  · rcases fileExists_trace_sub st cid f hck e he with he' | he' <;> subst he'
    · simp [fsEventPath] at hp
    · simp only [fsEventPath, Option.some.injEq] at hp
      rw [← hp]
      exact baseDir_prefix_filePath hgood hck

theorem validatedOp_getFileStats (st : StorageState) (cid : ContentId)
    (f : String)
    (hgood : ∀ c ∈ baseDir st cid, goodComponent c = true) :
    validatedOp (baseDir st cid) f (getFileStats st cid f) := by
  refine validatedOp_mk _ _ _ (getFileStats_head st cid f)
    (getFileStats_invalid st cid f) ?_
  intro e he p hp
  cases hck : checkFilename f
  · rw [(getFileStats_invalid st cid f hck).2] at he
    simp at he
    subst he
    simp [fsEventPath] at hp
  · rcases getFileStats_trace_sub st cid f hck e he with he' | he' | he' <;>
      subst he'
    · simp [fsEventPath] at hp
    · simp only [fsEventPath, Option.some.injEq] at hp
      rw [← hp]
      exact baseDir_prefix_filePath hgood hck
    · simp only [fsEventPath, Option.some.injEq] at hp
      rw [← hp]
      exact baseDir_prefix_filePath hgood hck

theorem validatedOp_getFileStream (st : StorageState) (cid : ContentId)
    (f : String) (rs re : Option Nat)
    (hgood : ∀ c ∈ baseDir st cid, goodComponent c = true) :
    validatedOp (baseDir st cid) f (getFileStream st cid f rs re) := by
  refine validatedOp_mk _ _ _ (getFileStream_head st cid f rs re)
    (getFileStream_invalid st cid f rs re) ?_
  intro e he p hp
  cases hck : checkFilename f
  · rw [(getFileStream_invalid st cid f rs re hck).2] at he
    simp at he
    subst he
    simp [fsEventPath] at hp
  · rcases getFileStream_trace_sub st cid f rs re hck e he
      with he' | he' | he' <;> subst he'
    · simp [fsEventPath] at hp
    · simp only [fsEventPath, Option.some.injEq] at hp
      rw [← hp]
      exact baseDir_prefix_filePath hgood hck
    · simp only [fsEventPath, Option.some.injEq] at hp
      rw [← hp]
      exact baseDir_prefix_filePath hgood hck

/-- C6: provided the configured content directory `<root>/<contentId>` is
a normalized path, each filename-taking operation (`addFile`,
`deleteFile`, `fileExists`, and — through their `fileExists` call —
`getFileStats` and `getFileStream`) validates the filename as its first
recorded action, fails without any filesystem access when the filename is
rejected, and confines every filesystem access of its trace to
`<root>/<contentId>`. -/
theorem c6_filename_validation (st : StorageState) (cid : ContentId)
    (f : String) (bytes : Bytes) (rs re : Option Nat)
    (hgood : ∀ c ∈ baseDir st cid, goodComponent c = true) :
    validatedOp (baseDir st cid) f (addFile st cid f bytes) ∧
    validatedOp (baseDir st cid) f (deleteFile st cid f) ∧
    validatedOp (baseDir st cid) f (fileExists st (some cid) f) ∧
    validatedOp (baseDir st cid) f (getFileStats st cid f) ∧
    validatedOp (baseDir st cid) f (getFileStream st cid f rs re) :=
  ⟨validatedOp_addFile st cid f bytes hgood,
    validatedOp_deleteFile st cid f hgood,
    validatedOp_fileExists st cid f hgood,
    validatedOp_getFileStats st cid f hgood,
    validatedOp_getFileStream st cid f rs re hgood⟩

/-- C6 witness at a concrete store, content id and nested filename. -/
theorem c6_filename_validation_witness :
    (∀ c ∈ baseDir emptyState 7, goodComponent c = true) ∧
    (validatedOp (baseDir emptyState 7) "img/a.png"
        (addFile emptyState 7 "img/a.png" [0]) ∧
      validatedOp (baseDir emptyState 7) "img/a.png"
        (deleteFile emptyState 7 "img/a.png") ∧
      validatedOp (baseDir emptyState 7) "img/a.png"
        (fileExists emptyState (some 7) "img/a.png") ∧
      validatedOp (baseDir emptyState 7) "img/a.png"
        (getFileStats emptyState 7 "img/a.png") ∧
      validatedOp (baseDir emptyState 7) "img/a.png"
        (getFileStream emptyState 7 "img/a.png" none none)) :=
  ⟨by decide,
    c6_filename_validation emptyState 7 "img/a.png" [0] none none (by decide)⟩

end ChipfabrikStorage
